import Mathlib

/-!
Verification of the Turtle Pool physics core (src/main.py).

The embedding uses exact rational arithmetic for the 2D geometry of the
game.  A vector or point is a pair of rationals.  The pygame operations
`length`, `distance_to` and `normalize` take a real square root; the model
represents them with an exact rational square root (`ratSqrt`) that agrees
with the source whenever the length is a rational number, which is the case
for every input any theorem below instantiates.  Comparisons of the form
`sqrt d < r` in the source are embedded in the equivalent squared form
`d < r^2` where noted; this is an equivalence because every radius in the
source is the positive constant 10 (balls) or 12 (holes).

Python exceptions (ZeroDivisionError in the segment test on a zero-length
segment, ValueError from normalizing a zero vector) are modelled by
`Option`: a `none` result stands for the raised exception.

Unbounded `while` loops of the source (the two push-out loops and the
free-position search) are modelled exactly by `Nat.find` over the loop
condition: the result is the state after the least number of iterations at
which the condition fails, together with a proof that such a number exists.

Rendering-only state of the source (colors, stripe angle and offset, MIDI)
is omitted; a ball is its position, velocity, radius, and a flag recording
whether it is the object identified with `self.cue_ball` (the source
compares by object identity, which the model represents with the flag).
-/

namespace TurtlePool

/-- A 2D point or vector: a pair of rationals, as pygame `Vector2`. -/
abbrev Vec : Type := ℚ × ℚ

/-- Squared length of a vector, `Vector2.length_squared`. -/
def lenSq (v : Vec) : ℚ := v.1 * v.1 + v.2 * v.2

/-- Dot product, `Vector2.dot`. -/
def dot (u v : Vec) : ℚ := u.1 * v.1 + u.2 * v.2

/-- Rotation by 90 degrees, `Vector2.rotate(90)`: `(x, y)` to `(-y, x)`. -/
def rot90 (v : Vec) : Vec := (-v.2, v.1)

/-- Squared distance between two points, the square of `distance_to`. -/
def distSq (p q : Vec) : ℚ := lenSq (p - q)

/-- Exact rational square root: `ratSqrt q` is the nonnegative rational
square root of `q` when one exists, and `0` otherwise.  On the square of a
rational it agrees with the real square root used by pygame. -/
def ratSqrt (q : ℚ) : ℚ :=
  let n := Nat.sqrt q.num.natAbs
  let d := Nat.sqrt q.den
  if 0 ≤ q ∧ n * n = q.num.natAbs ∧ d * d = q.den then (n : ℚ) / (d : ℚ) else 0

/-- Model of pygame `Vector2.normalize`: `none` models the ValueError
raised on a zero vector (and, as a restriction of the rational model,
covers vectors of irrational length, which no theorem below uses). -/
def normalize? (v : Vec) : Option Vec :=
  if ratSqrt (lenSq v) = 0 then none
  else some (v.1 / ratSqrt (lenSq v), v.2 / ratSqrt (lenSq v))

lemma lenSq_nonneg (v : Vec) : 0 ≤ lenSq v :=
  add_nonneg (mul_self_nonneg _) (mul_self_nonneg _)

lemma lenSq_eq_zero_iff (v : Vec) : lenSq v = 0 ↔ v = 0 := by
  unfold lenSq
  constructor
  · intro h
    have h1 : v.1 = 0 := by nlinarith [sq_nonneg v.1, sq_nonneg v.2]
    have h2 : v.2 = 0 := by nlinarith [sq_nonneg v.1, sq_nonneg v.2]
    exact Prod.ext h1 h2
  · rintro rfl; norm_num

lemma lenSq_pos_of_ne_zero {v : Vec} (h : v ≠ 0) : 0 < lenSq v := by
  rcases lt_or_eq_of_le (lenSq_nonneg v) with h' | h'
  · exact h'
  · exact absurd ((lenSq_eq_zero_iff v).mp h'.symm) h

lemma ratSqrt_zero : ratSqrt 0 = 0 := by
  unfold ratSqrt; norm_num

/-- On the square of a rational the exact square root recovers the
absolute value, as the real square root does. -/
lemma ratSqrt_mul_self (x : ℚ) : ratSqrt (x * x) = |x| := by
  unfold ratSqrt
  have hnum : (x * x).num = x.num * x.num := Rat.mul_self_num x
  have hden : (x * x).den = x.den * x.den := Rat.mul_self_den x
  have hnn : (x * x).num.natAbs = x.num.natAbs * x.num.natAbs := by
    rw [hnum, Int.natAbs_mul]
  have hpos : 0 ≤ x * x := mul_self_nonneg x
  rw [if_pos]
  · have h1 : Nat.sqrt (x * x).num.natAbs = x.num.natAbs := by
      rw [hnn, Nat.sqrt_eq]
    have h2 : Nat.sqrt (x * x).den = x.den := by
      rw [hden, Nat.sqrt_eq]
    have hdenpos : (0 : ℚ) < (x.den : ℚ) := by exact_mod_cast x.den_pos
    have hcast : ((x.num.natAbs : ℚ)) = |(x.num : ℚ)| := by
      rw [Int.cast_natAbs, Int.cast_abs]
    rw [h1, h2, hcast, ← abs_of_pos hdenpos, ← abs_div]
    congr 1
    exact Rat.num_div_den x
  · refine ⟨hpos, ?_, ?_⟩
    · rw [hnn, Nat.sqrt_eq]
    · rw [hden, Nat.sqrt_eq]

lemma normalize?_zero : normalize? 0 = none := by
  unfold normalize?
  have : lenSq 0 = 0 := (lenSq_eq_zero_iff 0).mpr rfl
  rw [this, ratSqrt_zero]
  simp

/-- Evaluation rule for `normalize?` on a vector of rational length. -/
lemma normalize?_eq (v : Vec) (l : ℚ) (hl : 0 < l) (hll : l * l = lenSq v) :
    normalize? v = some (v.1 / l, v.2 / l) := by
  unfold normalize?
  rw [← hll, ratSqrt_mul_self, abs_of_pos hl, if_neg (ne_of_gt hl)]

/-- A successfully normalized vector is nonzero. -/
lemma normalize?_ne_zero {v d : Vec} (h : normalize? v = some d) : d ≠ 0 := by
  unfold normalize? at h
  split_ifs at h with hl
  rw [Option.some_inj] at h
  intro hd0
  rw [← h] at hd0
  have h1 : v.1 / ratSqrt (lenSq v) = 0 := by
    have := congrArg Prod.fst hd0
    simpa using this
  have h2 : v.2 / ratSqrt (lenSq v) = 0 := by
    have := congrArg Prod.snd hd0
    simpa using this
  have hv1 : v.1 = 0 := by
    rcases div_eq_zero_iff.mp h1 with h' | h'
    · exact h'
    · exact absurd h' hl
  have hv2 : v.2 = 0 := by
    rcases div_eq_zero_iff.mp h2 with h' | h'
    · exact h'
    · exact absurd h' hl
  have hv : v = 0 := Prod.ext hv1 hv2
  apply hl
  rw [(lenSq_eq_zero_iff v).mpr hv, ratSqrt_zero]

/-! Segment collision test, `Turtle_Pool.collides_with_segment`:
`t = max(0, min(1, (ball_pos - segment_start).dot(line) / line.length_squared()))`,
`closest_point = segment_start + t * line`, collision iff the distance from
the ball position to the closest point is at most the ball radius. -/

/-- Clamp to the unit interval, the `max(0, min(1, t))` of the source. -/
def clamp01 (t : ℚ) : ℚ := max 0 (min 1 t)

/-- Closest point of a segment to a point, by clamped projection. -/
def closestPoint (p s e : Vec) : Vec :=
  s + clamp01 (dot (p - s) (e - s) / lenSq (e - s)) • (e - s)

/-- Collision of a ball at `p` of radius `r` with the segment from `s` to
`e`.  The source compares `distance_to(closest_point) <= ball_radius`; the
model uses the equivalent squared form (every radius in the source is the
positive constant 10). -/
def collides (p : Vec) (r : ℚ) (s e : Vec) : Prop :=
  distSq p (closestPoint p s e) ≤ r ^ 2

instance decCollides (p : Vec) (r : ℚ) (s e : Vec) : Decidable (collides p r s e) :=
  decidable_of_iff (distSq p (closestPoint p s e) ≤ r ^ 2) Iff.rfl

/-- The segment collision test as called by the handlers.  The source has
no guard for a zero-length segment: `line.length_squared()` is then `0` and
the division raises ZeroDivisionError, modelled by `none`. -/
def collidesWithSegment? (p : Vec) (r : ℚ) (s e : Vec) : Option Bool :=
  if lenSq (e - s) = 0 then none else some (decide (collides p r s e))

lemma clamp01_nonneg (t : ℚ) : 0 ≤ clamp01 t := le_max_left 0 _

lemma clamp01_le_one (t : ℚ) : clamp01 t ≤ 1 := by
  unfold clamp01
  exact max_le zero_le_one (min_le_left 1 t)

/-- A point far enough from the segment start does not collide with the
segment: the clamped closest point lies within the segment, whose extent
from the start is bounded. -/
lemma collides_far (p s e : Vec) (r : ℚ)
    (h : 2 * r ^ 2 + 2 * lenSq (e - s) < lenSq (p - s)) : ¬ collides p r s e := by
  intro hc
  unfold collides distSq closestPoint at hc
  set t := clamp01 (dot (p - s) (e - s) / lenSq (e - s)) with ht
  have ht0 : 0 ≤ t := clamp01_nonneg _
  have ht1 : t ≤ 1 := clamp01_le_one _
  have hsub : p - (s + t • (e - s)) = (p - s) - t • (e - s) := by
    abel
  rw [hsub] at hc
  set a := (p - s).1 with ha
  set b := (p - s).2 with hb
  set c := (e - s).1 with hcc
  set d := (e - s).2 with hd
  have hcomp : lenSq ((p - s) - t • (e - s)) = (a - t * c) * (a - t * c) + (b - t * d) * (b - t * d) := by
    unfold lenSq
    simp [Prod.fst_sub, Prod.snd_sub, Prod.smul_fst, Prod.smul_snd, smul_eq_mul, ha, hb, hcc, hd]
  rw [hcomp] at hc
  have hlen1 : lenSq (p - s) = a * a + b * b := rfl
  have hlen2 : lenSq (e - s) = c * c + d * d := rfl
  rw [hlen1, hlen2] at h
  nlinarith [sq_nonneg (a - 2 * t * c), sq_nonneg (b - 2 * t * d),
    mul_nonneg (mul_nonneg (sub_nonneg.mpr ht1) (by linarith : (0:ℚ) ≤ 1 + t)) (lenSq_nonneg (e - s)),
    sq_nonneg t, lenSq_nonneg (e - s), sq_nonneg r]

/-- Repeatedly stepping a fixed nonzero direction escapes the collision
region of any segment: the loop condition of the push-out `while` loops of
the source eventually fails. -/
theorem pushOut_escape (s e p d : Vec) (r : ℚ) (hd : d ≠ 0) :
    ∃ k : ℕ, ¬ collides (p + (k : ℚ) • d) r s e := by
  set A := lenSq d with hA
  have hApos : 0 < A := lenSq_pos_of_ne_zero hd
  set B := dot (p - s) d with hB
  set C := lenSq (p - s) with hC
  set M := 2 * r ^ 2 + 2 * lenSq (e - s) with hM
  have hMnn : 0 ≤ M := by
    have := lenSq_nonneg (e - s)
    have := sq_nonneg r
    rw [hM]; linarith
  have hCnn : 0 ≤ C := lenSq_nonneg _
  set q : ℚ := (M + 2 * |B| + 1) / A with hq
  refine ⟨(⌈q⌉).toNat + 1, ?_⟩
  set K : ℕ := (⌈q⌉).toNat + 1 with hK
  apply collides_far
  have hKq : q ≤ (K : ℚ) := by
    have h1 : q ≤ (⌈q⌉ : ℚ) := Int.le_ceil q
    have h2 : (⌈q⌉ : ℤ) ≤ ((⌈q⌉).toNat : ℤ) := Int.self_le_toNat _
    have h3 : ((⌈q⌉ : ℚ)) ≤ (((⌈q⌉).toNat : ℕ) : ℚ) := by exact_mod_cast h2
    have h4 : (((⌈q⌉).toNat : ℕ) : ℚ) ≤ (K : ℚ) := by
      rw [hK]; push_cast; linarith
    linarith
  have hK1 : (1 : ℚ) ≤ (K : ℚ) := by
    rw [hK]; push_cast
    have : (0:ℚ) ≤ (((⌈q⌉).toNat : ℕ) : ℚ) := Nat.cast_nonneg _
    linarith
  have hAK : M + 2 * |B| + 1 ≤ A * (K : ℚ) := by
    rw [div_le_iff₀ hApos] at hKq
    linarith [hKq]
  have hquad : lenSq (p + (K : ℚ) • d - s) = A * (K : ℚ) ^ 2 + 2 * B * (K : ℚ) + C := by
    have hsub : p + (K : ℚ) • d - s = (p - s) + (K : ℚ) • d := by abel
    rw [hsub]
    unfold lenSq dot at *
    simp only [Prod.fst_add, Prod.snd_add, Prod.smul_fst, Prod.smul_snd, smul_eq_mul,
      hA, hB, hC]
    ring
  rw [hquad]
  have habsB : -|B| ≤ B := neg_abs_le B
  have hKnn : (0 : ℚ) ≤ (K : ℚ) := by linarith
  nlinarith [mul_le_mul_of_nonneg_right hAK hKnn, mul_le_mul_of_nonneg_right habsB hKnn,
    mul_nonneg hMnn (by linarith : (0:ℚ) ≤ (K : ℚ) - 1)]

/-- Number of iterations of the unbounded `while colliding: pos += d` loop
of the source, starting at `p`: the least iteration count at which the
collision test fails.  For a zero direction (never produced by the source,
whose directions are normalized) the count is `0`. -/
def pushCount (s e p d : Vec) (r : ℚ) : ℕ :=
  if hd : d = 0 then 0 else Nat.find (pushOut_escape s e p d r hd)

/-- Result of the push-out loop: the position after `pushCount` unit steps
along `d`. -/
def pushOut (s e p d : Vec) (r : ℚ) : Vec :=
  p + ((pushCount s e p d r : ℕ) : ℚ) • d

/-- Characterization of the push-out loop on concrete data: if position
`p + k • d` is the first clear position then the loop stops there. -/
lemma pushOut_eq (s e p d qq : Vec) (r : ℚ) (k : ℕ) (hd : d ≠ 0)
    (hk : ¬ collides (p + (k : ℚ) • d) r s e)
    (hmin : ∀ j : ℕ, j < k → collides (p + (j : ℚ) • d) r s e)
    (hq : p + (k : ℚ) • d = qq) : pushOut s e p d r = qq := by
  subst hq
  unfold pushOut pushCount
  rw [dif_neg hd]
  have hfind : Nat.find (pushOut_escape s e p d r hd) = k :=
    (Nat.find_eq_iff _).mpr ⟨hk, fun n hn => not_not_intro (hmin n hn)⟩
  rw [hfind]

/-- The push-out loop terminates with a position clear of the segment. -/
lemma pushOut_clear (s e p d : Vec) (r : ℚ) (hd : d ≠ 0) :
    ¬ collides (pushOut s e p d r) r s e := by
  unfold pushOut pushCount
  rw [dif_neg hd]
  exact Nat.find_spec (pushOut_escape s e p d r hd)

/-! The ball entity and the per-tick operations of `Turtle_Pool.run`. -/

/-- A ball: position, velocity, radius (the source constructor always sets
10) and whether it is the object the source compares with `self.cue_ball`
by identity.  Rendering-only fields (color, stripe angle and offset) are
omitted. -/
structure Ball where
  pos : Vec
  vel : Vec
  radius : ℚ
  isCue : Bool
deriving DecidableEq

/-- Integration step: `Ball.move` (position += velocity, friction 0.98)
followed by the screen-edge velocity flips of `Turtle_Pool.move_ball`
(screen is 1000 by 1000). -/
def moveBall (b : Ball) : Ball :=
  let p := b.pos + b.vel
  let v := (49 / 50 : ℚ) • b.vel
  let vx := if p.1 - b.radius ≤ 0 ∨ p.1 + b.radius ≥ 1000 then -v.1 else v.1
  let vy := if p.2 - b.radius ≤ 0 ∨ p.2 + b.radius ≥ 1000 then -v.2 else v.2
  { b with pos := p, vel := (vx, vy) }

/-- The closed polygon as a list of segments: segment `i` runs from
`points[i]` to `points[(i + 1) % len(points)]`. -/
def segments (pts : List Vec) : List (Vec × Vec) := pts.zip (pts.rotate 1)

/-- Velocity reflection about a segment normal:
`v - 2 * v.dot(n) * n`. -/
def reflect (v n : Vec) : Vec := v - (2 * dot v n) • n

/-- Body of `Turtle_Pool.handle_ball_polygon_collision`: scan the segments
in order; on the first collision reflect the velocity about the rotated
normalized segment direction, push the position along that normal until
clear, and stop (the source returns `True` there).  `none` models an
exception (zero-length segment in the collision test, or a zero-length
normal to normalize). -/
def wallCollideAux (r : ℚ) (p v : Vec) : List (Vec × Vec) → Option (Vec × Vec × Bool)
  | [] => some (p, v, false)
  | (s, e) :: rest =>
    (collidesWithSegment? p r s e).bind fun c =>
      if c then
        (normalize? (rot90 (e - s))).map fun n_ => (pushOut s e p n_ r, reflect v n_, true)
      else wallCollideAux r p v rest

/-- Wall reflection for a ball against the polygon `pts`. -/
def wallCollideBall (pts : List Vec) (b : Ball) : Option Ball :=
  (wallCollideAux b.radius b.pos b.vel (segments pts)).map fun x =>
    { b with pos := x.1, vel := x.2.1 }

/-- The per-ball physics phase of one tick of `Turtle_Pool.run` (lines
804 to 808 of the source): move the ball, then handle the ball-polygon
wall collision.  No other collision routine is invoked there. -/
def tickBallPhase (pts : List Vec) (b : Ball) : Option Ball :=
  wallCollideBall pts (moveBall b)

/-- Midpoint of a segment. -/
def midpt (s e : Vec) : Vec := ((1 : ℚ) / 2) • (s + e)

/-- Body of `Turtle_Pool.handle_ball_polygon_overlap`: for every segment
the ball overlaps, push the ball along the unit direction from the current
segment midpoint to the next-tick segment midpoint until clear, and add
2 times that direction to the velocity.  Unlike wall reflection this scans
all segments without an early return. -/
def rescueAux (r : ℚ) (p v : Vec) : List ((Vec × Vec) × (Vec × Vec)) → Option (Vec × Vec)
  | [] => some (p, v)
  | ((s, e), (sn, en)) :: rest =>
    (collidesWithSegment? p r s e).bind fun c =>
      if c then
        (normalize? (midpt sn en - midpt s e)).bind fun dm =>
          rescueAux r (pushOut s e p dm r) (v + (2 : ℚ) • dm) rest
      else rescueAux r p v rest

/-- The pairs of current and next-tick segments at the same edge index. -/
def segmentPairs (pts nextPts : List Vec) : List ((Vec × Vec) × (Vec × Vec)) :=
  (segments pts).zip (segments nextPts)

/-- Boundary-overlap rescue for a ball, from the current and next-tick
polygons. -/
def rescueBall (pts nextPts : List Vec) (b : Ball) : Option Ball :=
  (rescueAux b.radius b.pos b.vel (segmentPairs pts nextPts)).map fun x =>
    { b with pos := x.1, vel := x.2 }

/-- Modelled from the spec wording of claim C2: a per-ball tick phase that
applies wall reflection first and then the boundary-overlap rescue.  This
definition follows the claim and is compared against `tickBallPhase`, the
phase the source actually runs. -/
def claimedTickBallPhase (pts nextPts : List Vec) (b : Ball) : Option Ball :=
  (tickBallPhase pts b).bind (rescueBall pts nextPts)

/-- Ball-ball collision, `Turtle_Pool.handle_ball_collision`.  The branch
condition `distance < r1 + r2` is embedded in the equivalent squared form
(radii in the source are the positive constant 10); the separation uses
the exact distance.  `none` models the ValueError from normalizing the
zero separation vector of exactly coincident centers.  The boolean mirrors
the `True` returned on collision (`False` stands for the `None` fallthrough
of the source). -/
def handleBallCollision? (b1 b2 : Ball) : Option (Ball × Ball × Bool) :=
  if distSq b1.pos b2.pos < (b1.radius + b2.radius) ^ 2 then
    (normalize? (b1.pos - b2.pos)).map fun dir =>
      let distance := ratSqrt (distSq b1.pos b2.pos)
      let overlap := (b1.radius + b2.radius) - distance
      let p1 := b1.pos + (overlap / 2) • dir
      let p2 := b2.pos - (overlap / 2) • dir
      let tangent : Vec := (dir.2, -dir.1)
      let v1n := dot b1.vel dir
      let v1t := dot b1.vel tangent
      let v2n := dot b2.vel dir
      let v2t := dot b2.vel tangent
      let v1n' := v1n * (b1.radius - b2.radius) / (b1.radius + b2.radius) +
        v2n * 2 * b2.radius / (b1.radius + b2.radius)
      let v2n' := v2n * (b2.radius - b1.radius) / (b1.radius + b2.radius) +
        v1n * 2 * b1.radius / (b1.radius + b2.radius)
      ({ b1 with pos := p1, vel := v1n' • dir + v1t • tangent },
       { b2 with pos := p2, vel := v2n' • dir + v2t • tangent }, true)
  else some (b1, b2, false)

/-! Pocket generation, `Turtle_Pool.generate_holes_from_points` and
`Turtle_Pool.point_inside_polygon`. -/

/-- Polygon vertex access with the Python wrap-around `points[i % n]`. -/
def vertexAt (points : List Vec) (i : ℕ) : Vec :=
  points.getD (i % points.length) 0

/-- Ray-casting point-in-polygon test, `Turtle_Pool.point_inside_polygon`:
vertex `i` is paired with vertex `j`, the previous index (starting at
`n - 1`), and the crossing parity is accumulated. -/
def pointInsidePolygon (pt : Vec) (poly : List Vec) : Bool :=
  (poly.zip (poly.rotate (poly.length - 1))).foldl
    (fun odd q =>
      if (q.1.2 < pt.2 ∧ q.2.2 ≥ pt.2) ∨ (q.2.2 < pt.2 ∧ q.1.2 ≥ pt.2) then
        if q.1.1 + (pt.2 - q.1.2) / (q.2.2 - q.1.2) * (q.2.1 - q.1.1) < pt.1 then !odd
        else odd
      else odd)
    false

/-- The hole derived from vertex `i`: offset the vertex by `off` along the
normalized sum of the unit vectors toward its previous and next neighbors;
if the offset point is NOT inside the polygon, invert the offset (the
source comment reads: if the hole is outside the polygon, invert its
offset).  `none` models a normalize exception. -/
def holeAt (points : List Vec) (off : ℚ) (i : ℕ) : Option Vec :=
  (normalize? (vertexAt points (i + (points.length - 1)) - vertexAt points i)).bind fun u =>
    (normalize? (vertexAt points (i + 1) - vertexAt points i)).bind fun w =>
      (normalize? (u + w)).map fun m =>
        if pointInsidePolygon (vertexAt points i + off • m) points then
          vertexAt points i + off • m
        else vertexAt points i - off • m

/-- All holes: the source iterates `range(0, len(points), step)` with
`step = len(points) // num_holes`.  A zero step (num_holes zero or larger
than the point count) raises in Python, modelled by `none`. -/
def generateHolesFromPoints (points : List Vec) (numHoles : ℕ) (off : ℚ) :
    Option (List Vec) :=
  let step := points.length / numHoles
  if step = 0 then none
  else ((List.range points.length).filter (fun i => i % step = 0)).mapM (holeAt points off)

/-! Scoring, pocket capture and the turn state machine of
`Turtle_Pool.run`, with `Turtle_Pool.get_free_position`. -/

/-- Game state: active balls and the turn bookkeeping fields of the
source. -/
structure GameState where
  balls : List Ball
  currentPlayer : ℕ
  score1 : ℕ
  score2 : ℕ
  playerScored : Bool

/-- Every ball list admits a center offset step count after which the
stepped position is at least two radii from every listed ball: the
`while` loop of `get_free_position` terminates. -/
theorem freePos_exists (balls : List Ball) :
    ∃ k : ℕ, ∀ b ∈ balls,
      ¬ distSq (((500 : ℚ), (500 : ℚ)) + (k : ℚ) • ((5 : ℚ), (5 : ℚ))) b.pos
        < (2 * b.radius) ^ 2 := by
  suffices h : ∃ K : ℕ, ∀ k : ℕ, K ≤ k → ∀ b ∈ balls,
      ¬ distSq (((500 : ℚ), (500 : ℚ)) + (k : ℚ) • ((5 : ℚ), (5 : ℚ))) b.pos
        < (2 * b.radius) ^ 2 by
    obtain ⟨K, hK⟩ := h
    exact ⟨K, hK K le_rfl⟩
  induction balls with
  | nil => exact ⟨0, fun k _ b hb => absurd hb (List.not_mem_nil b)⟩
  | cons hd tl ih =>
    obtain ⟨K₁, hK₁⟩ := ih
    set a := (500 : ℚ) - hd.pos.1 with ha
    set bb := (500 : ℚ) - hd.pos.2 with hbb
    set R := 2 * hd.radius with hR
    set qb : ℚ := (|a| + |bb| + |R|) / 5 with hqb
    refine ⟨max K₁ ((⌈qb⌉).toNat + 1), fun k hk b hb => ?_⟩
    rcases List.mem_cons.mp hb with rfl | hb'
    · intro hlt
      have hkq : qb ≤ (k : ℚ) := by
        have h0 : (((⌈qb⌉).toNat + 1 : ℕ) : ℚ) ≤ (k : ℚ) := by
          exact_mod_cast le_trans (le_max_right _ _) hk
        have h1 : qb ≤ (⌈qb⌉ : ℚ) := Int.le_ceil qb
        have h2 : ((⌈qb⌉ : ℚ)) ≤ (((⌈qb⌉).toNat : ℕ) : ℚ) := by
          exact_mod_cast Int.self_le_toNat _
        have h3 : (((⌈qb⌉).toNat : ℕ) : ℚ) ≤ (((⌈qb⌉).toNat + 1 : ℕ) : ℚ) := by
          push_cast; linarith
        linarith
      have h5k : |a| + |bb| + |R| ≤ 5 * (k : ℚ) := by
        rw [hqb, div_le_iff₀ (by norm_num : (0:ℚ) < 5)] at hkq
        linarith
      have hcomp : distSq (((500 : ℚ), (500 : ℚ)) + (k : ℚ) • ((5 : ℚ), (5 : ℚ))) b.pos
          = (a + 5 * (k : ℚ)) * (a + 5 * (k : ℚ)) + (bb + 5 * (k : ℚ)) * (bb + 5 * (k : ℚ)) := by
        unfold distSq lenSq
        simp only [Prod.fst_sub, Prod.snd_sub, Prod.fst_add, Prod.snd_add,
          Prod.smul_fst, Prod.smul_snd, smul_eq_mul, ha, hbb]
        ring
      rw [hcomp] at hlt
      have haK : |R| ≤ a + 5 * (k : ℚ) := by
        have := abs_le.mp (le_refl |a|)
        have hA : -|a| ≤ a := neg_abs_le a
        have hB : (0:ℚ) ≤ |bb| := abs_nonneg bb
        linarith
      have hbK : (0 : ℚ) ≤ bb + 5 * (k : ℚ) := by
        have hBb : -|bb| ≤ bb := neg_abs_le bb
        have hA : (0:ℚ) ≤ |a| := abs_nonneg a
        have hRnn : (0:ℚ) ≤ |R| := abs_nonneg R
        linarith
      have hRk : R ^ 2 ≤ (a + 5 * (k : ℚ)) * (a + 5 * (k : ℚ)) := by
        have h1 : |R| * |R| ≤ (a + 5 * (k : ℚ)) * (a + 5 * (k : ℚ)) :=
          mul_self_le_mul_self (abs_nonneg R) haK
        have h2 : |R| * |R| = R ^ 2 := by
          rw [← abs_mul, abs_mul_self, sq]
        linarith
      rw [hR] at hRk
      nlinarith [mul_self_nonneg (bb + 5 * (k : ℚ))]
    · exact hK₁ k (le_trans (le_max_left _ _) hk) b hb'

/-- Free position for the respawned cue ball,
`Turtle_Pool.get_free_position`: start at the table center `(500, 500)`
and step by `(5, 5)` while any listed ball is within twice its radius
(squared form of `distance_to(center_pos) < 2 * ball.radius`). -/
def freePos (balls : List Ball) : Vec :=
  ((500 : ℚ), (500 : ℚ)) + ((Nat.find (freePos_exists balls) : ℕ) : ℚ) • ((5 : ℚ), (5 : ℚ))

/-- Pocket capture handling of `Turtle_Pool.run` (lines 815 to 834): the
captured ball is removed; a captured cue ball is given the free position
and zero velocity and appended back; for a captured non-cue ball the score
of the player whose number equals `current_player` is incremented; the
scored flag is set in every case. -/
def captureUpdate (st : GameState) (b : Ball) : GameState :=
  let rest := st.balls.erase b
  if b.isCue then
    let cue : Ball := { b with pos := freePos rest, vel := 0 }
    { st with balls := rest ++ [cue], playerScored := true }
  else if st.currentPlayer = 1 then
    { st with balls := rest, score1 := st.score1 + 1, playerScored := true }
  else
    { st with balls := rest, score2 := st.score2 + 1, playerScored := true }

/-- Turn-advance logic of `Turtle_Pool.run` (lines 844 to 858): when all
balls have exactly zero velocity and some ball was moving on the previous
tick, the player toggles unless the scored flag is set, and the scored
flag resets; the was-moving flag becomes the negation of all-stopped.
Returns (player, scored flag, was-moving flag). -/
def turnUpdate (balls : List Ball) (player : ℕ) (scored wasMoving : Bool) :
    ℕ × Bool × Bool :=
  let allStopped := decide (∀ b ∈ balls, b.vel = (0 : Vec))
  if allStopped ∧ wasMoving then
    ((if scored = false then (if player = 1 then 2 else 1) else player),
      false, !allStopped)
  else (player, scored, !allStopped)

/-! Polygon normalization of `Turtle_Pool.get_polygon_points`: the raw
coordinates come from a cosine series and are not rational; the affine
rescale applied to them is embedded over an arbitrary rational coordinate
list. -/

/-- Minimum of a coordinate list, `numpy.min` (zero on the empty list,
which the source never passes). -/
def listMin : List ℚ → ℚ
  | [] => 0
  | x :: xs => xs.foldl min x

/-- Maximum of a coordinate list, `numpy.max`. -/
def listMax : List ℚ → ℚ
  | [] => 0
  | x :: xs => xs.foldl max x

/-- Per-axis normalization of `get_polygon_points`:
`(x - x.min()) / (x.max() - x.min()) * (dimension - 40) + 20` with
dimension 1000. -/
def normalizeAxis (xs : List ℚ) : List ℚ :=
  xs.map fun v => (v - listMin xs) / (listMax xs - listMin xs) * (1000 - 40) + 20

/-! Concrete data used by the counterexamples and witnesses. -/

/-- A square table boundary with rational coordinates. -/
def sqPts : List Vec := [((0 : ℚ), (0 : ℚ)), (100, 0), (100, 100), (0, 100)]

/-- The same square translated one unit along the x axis, playing the role
of the next-tick polygon. -/
def sqPtsNext : List Vec := [((1 : ℚ), (0 : ℚ)), (101, 0), (101, 100), (1, 100)]

/-- A resting ball overlapping both the bottom and the right segment of
`sqPts` near the corner `(100, 0)`. -/
def demoBall : Ball := { pos := (95, 5), vel := (0, 0), radius := 10, isCue := false }

/-- Wall reflection on `demoBall` stops after the first colliding segment
(the bottom one) at `(95, 11)`. -/
def demoBallAfterWall : Ball := { pos := (95, 11), vel := (0, 0), radius := 10, isCue := false }

/-- The state the claimed wall-then-rescue composition would produce:
the rescue also clears the right segment and injects velocity `(2, 0)`. -/
def demoBallAfterRescue : Ball := { pos := (111, 11), vel := (2, 0), radius := 10, isCue := false }

/-- A kite-shaped polygon whose vertex 0 has rational unit vectors toward
both neighbors and a rational bisector `(1, 0)`. -/
def kitePts : List Vec := [((0 : ℚ), (0 : ℚ)), (3, -4), (30, 0), (3, 4)]

/-- A cue ball at the source rack position of the cue. -/
def exCue : Ball := { pos := (500, 440), vel := (0, 0), radius := 10, isCue := true }

/-- A non-cue object ball. -/
def exSolid : Ball := { pos := (500, 500), vel := (0, 0), radius := 10, isCue := false }

/-- A state in which player 1 is shooting and nobody has scored. -/
def exState : GameState :=
  { balls := [exCue, exSolid], currentPlayer := 1, score1 := 0, score2 := 0,
    playerScored := false }

/-- A ball moving right at 3 units per tick, overlapping `headB`. -/
def headA : Ball := { pos := (505, 500), vel := (3, 0), radius := 10, isCue := false }

/-- A ball moving left at 3 units per tick, overlapping `headA`. -/
def headB : Ball := { pos := (500, 500), vel := (-3, 0), radius := 10, isCue := false }

/-- Two balls with exactly coincident centers. -/
def coinA : Ball := { pos := (500, 500), vel := (1, 0), radius := 10, isCue := false }

/-- The second coincident ball. -/
def coinB : Ball := { pos := (500, 500), vel := (0, 0), radius := 10, isCue := false }

/-! Helper lemmas shared by the claim theorems. -/

/-- On a zero-length segment the collision test raises (returns `none`). -/
lemma collidesWithSegment?_degenerate (p : Vec) (r : ℚ) (s : Vec) :
    collidesWithSegment? p r s s = none := by
  unfold collidesWithSegment?
  rw [if_pos]
  rw [sub_self]
  exact (lenSq_eq_zero_iff 0).mpr rfl

/-- On coincident centers with positive radius sum the ball-ball handler
raises at the zero-vector normalize (returns `none`). -/
lemma handleBallCollision?_coincident (b1 b2 : Ball) (hpos : b1.pos = b2.pos)
    (hr : 0 < b1.radius + b2.radius) :
    handleBallCollision? b1 b2 = none := by
  unfold handleBallCollision?
  have hzero : b1.pos - b2.pos = 0 := by rw [hpos, sub_self]
  rw [if_pos]
  · rw [hzero, normalize?_zero]
    rfl
  · unfold distSq
    rw [hzero, (lenSq_eq_zero_iff 0).mpr rfl]
    exact pow_pos hr 2

lemma foldl_min_le_foldl_max (t : List ℚ) : ∀ a b : ℚ, a ≤ b →
    t.foldl min a ≤ t.foldl max b := by
  induction t with
  | nil => intro a b h; simpa using h
  | cons c t ih =>
    intro a b h
    simp only [List.foldl_cons]
    exact ih _ _ (le_trans (min_le_left a c) (le_trans h (le_max_left b c)))

lemma foldl_min_map (f : ℚ → ℚ) (hf : Monotone f) (t : List ℚ) :
    ∀ a : ℚ, (t.map f).foldl min (f a) = f (t.foldl min a) := by
  induction t with
  | nil => intro a; simp
  | cons c t ih =>
    intro a
    simp only [List.map_cons, List.foldl_cons]
    rw [← hf.map_min, ih]

lemma foldl_max_map (f : ℚ → ℚ) (hf : Monotone f) (t : List ℚ) :
    ∀ a : ℚ, (t.map f).foldl max (f a) = f (t.foldl max a) := by
  induction t with
  | nil => intro a; simp
  | cons c t ih =>
    intro a
    simp only [List.map_cons, List.foldl_cons]
    rw [← hf.map_max, ih]

/-- Evaluation of the collision test against a horizontal segment when the
x coordinate of the point lies between the segment ends. -/
lemma collides_horiz (x0 x1 y0 a b r : ℚ) (hx : x0 < x1) (ha0 : x0 ≤ a) (ha1 : a ≤ x1) :
    collides (a, b) r (x0, y0) (x1, y0) ↔ (b - y0) ^ 2 ≤ r ^ 2 := by
  have hxne : x1 - x0 ≠ 0 := ne_of_gt (by linarith)
  simp only [collides, closestPoint, clamp01, distSq, lenSq, dot,
    Prod.mk_sub_mk, Prod.mk_add_mk, Prod.smul_mk, smul_eq_mul]
  have ht : ((a - x0) * (x1 - x0) + (b - y0) * (y0 - y0)) /
      ((x1 - x0) * (x1 - x0) + (y0 - y0) * (y0 - y0)) = (a - x0) / (x1 - x0) := by
    rw [show y0 - y0 = 0 by ring]
    rw [show (a - x0) * (x1 - x0) + (b - y0) * 0 = (a - x0) * (x1 - x0) by ring]
    rw [show (x1 - x0) * (x1 - x0) + 0 * 0 = (x1 - x0) * (x1 - x0) by ring]
    rw [mul_div_mul_right _ _ hxne]
  rw [ht]
  have h0 : 0 ≤ (a - x0) / (x1 - x0) := div_nonneg (by linarith) (by linarith)
  have h1 : (a - x0) / (x1 - x0) ≤ 1 := by
    rw [div_le_one (by linarith)]
    linarith
  rw [min_eq_right h1, max_eq_right h0]
  have hclose : x0 + (a - x0) / (x1 - x0) * (x1 - x0) = a := by
    field_simp
  rw [hclose]
  constructor
  · intro h; nlinarith [h]
  · intro h; nlinarith [h]

/-- Evaluation of the collision test against a vertical segment when the
y coordinate of the point lies between the segment ends. -/
lemma collides_vert (x0 y0 y1 a b r : ℚ) (hy : y0 < y1) (hb0 : y0 ≤ b) (hb1 : b ≤ y1) :
    collides (a, b) r (x0, y0) (x0, y1) ↔ (a - x0) ^ 2 ≤ r ^ 2 := by
  have hyne : y1 - y0 ≠ 0 := ne_of_gt (by linarith)
  simp only [collides, closestPoint, clamp01, distSq, lenSq, dot,
    Prod.mk_sub_mk, Prod.mk_add_mk, Prod.smul_mk, smul_eq_mul]
  have ht : ((a - x0) * (x0 - x0) + (b - y0) * (y1 - y0)) /
      ((x0 - x0) * (x0 - x0) + (y1 - y0) * (y1 - y0)) = (b - y0) / (y1 - y0) := by
    rw [show x0 - x0 = 0 by ring]
    rw [show (a - x0) * 0 + (b - y0) * (y1 - y0) = (b - y0) * (y1 - y0) by ring]
    rw [show (0 : ℚ) * 0 + (y1 - y0) * (y1 - y0) = (y1 - y0) * (y1 - y0) by ring]
    rw [mul_div_mul_right _ _ hyne]
  rw [ht]
  have h0 : 0 ≤ (b - y0) / (y1 - y0) := div_nonneg (by linarith) (by linarith)
  have h1 : (b - y0) / (y1 - y0) ≤ 1 := by
    rw [div_le_one (by linarith)]
    linarith
  rw [min_eq_right h1, max_eq_right h0]
  have hclose : y0 + (b - y0) / (y1 - y0) * (y1 - y0) = b := by
    field_simp
  rw [hclose]
  constructor
  · intro h; nlinarith [h]
  · intro h; nlinarith [h]

/-! Claim theorems. -/

/-- C1 (code bug, behavior of the code at the failing input): with
`current_player = 1` and a captured non-cue ball, the source adds the
point to `score_player1`, the score of the player who pocketed the ball,
not to player 2 as the claim states; the comment next to that line in the
source reads `Opponent gets the point`, contradicting the code.  The
scored flag is set as claimed. -/
theorem capture_point_goes_to_current_player :
    (captureUpdate exState exSolid).score1 = 1 ∧
    (captureUpdate exState exSolid).score2 = 0 ∧
    (captureUpdate exState exSolid).playerScored = true ∧
    exState.currentPlayer = 1 ∧ exSolid.isCue = false := by
  refine ⟨rfl, rfl, rfl, rfl, rfl⟩

/-- C5 counterexample: the segment collision test applied to a zero-length
segment is not skipped as a no-op; the division by the zero squared length
raises (modelled by `none`, not by the skip result `some false`). -/
theorem zero_length_segment_test_errors :
    collidesWithSegment? ((3 : ℚ), (4 : ℚ)) 10 ((5 : ℚ), (5 : ℚ)) ((5 : ℚ), (5 : ℚ)) = none ∧
    collidesWithSegment? ((3 : ℚ), (4 : ℚ)) 10 ((5 : ℚ), (5 : ℚ)) ((5 : ℚ), (5 : ℚ)) ≠
      some false := by
  rw [collidesWithSegment?_degenerate]
  exact ⟨rfl, by simp⟩

/-- C5 (amended): the segment collision test has no zero-length guard; on
any zero-length segment the division by `line.length_squared() = 0` raises
a ZeroDivisionError, modelled by `none`, for every ball position and
radius. -/
theorem collision_test_raises_on_zero_segment (p : Vec) (r : ℚ) (s : Vec) :
    collidesWithSegment? p r s s = none :=
  collidesWithSegment?_degenerate p r s

/-- C6 counterexample: on two balls with exactly coincident centers the
ball-ball collision handler is not a no-op that leaves both balls
untouched; it fails at normalizing the zero separation vector (a pygame
ValueError, modelled by `none`). -/
theorem coincident_balls_not_noop :
    handleBallCollision? coinA coinB = none ∧
    handleBallCollision? coinA coinB ≠ some (coinA, coinB, false) := by
  rw [handleBallCollision?_coincident coinA coinB rfl (by norm_num [coinA, coinB])]
  exact ⟨rfl, by simp⟩

/-- C6 (amended): for every pair of balls with exactly coincident centers
and positive radius sum, the handler enters the collision branch and
raises at `normalize()` (modelled by `none`); no position or velocity
mutation is reached, and the blanket exception handler of the run loop
swallows the error. -/
theorem coincident_balls_collision_raises (b1 b2 : Ball) (hpos : b1.pos = b2.pos)
    (hr : 0 < b1.radius + b2.radius) :
    handleBallCollision? b1 b2 = none :=
  handleBallCollision?_coincident b1 b2 hpos hr

/-- C6 witness. -/
theorem coincident_balls_collision_raises_witness :
    coinA.pos = coinB.pos ∧ (0 : ℚ) < coinA.radius + coinB.radius ∧
    handleBallCollision? coinA coinB = none :=
  ⟨rfl, by norm_num [coinA, coinB],
    coincident_balls_collision_raises coinA coinB rfl (by norm_num [coinA, coinB])⟩

/-- C9 (confirmed): on a tick where every ball has exactly zero velocity
and the was-moving flag is set, the turn logic toggles `current_player`
exactly once when the scored flag is clear, leaves it unchanged when the
scored flag is set, and resets the scored flag in both cases. -/
theorem turn_toggles_once_on_full_stop (balls : List Ball) (player : ℕ) (scored : Bool)
    (hstop : ∀ b ∈ balls, b.vel = (0 : Vec)) (hp : player = 1 ∨ player = 2) :
    (scored = false → (turnUpdate balls player scored true).1 = 3 - player ∧
      (turnUpdate balls player scored true).1 ≠ player) ∧
    (scored = true → (turnUpdate balls player scored true).1 = player) ∧
    (turnUpdate balls player scored true).2.1 = false := by
  have hall : decide (∀ b ∈ balls, b.vel = (0 : Vec)) = true := decide_eq_true hstop
  unfold turnUpdate
  rw [hall]
  rcases hp with rfl | rfl <;> cases scored <;> simp

/-- C9 witness. -/
theorem turn_toggles_once_on_full_stop_witness :
    (∀ b ∈ [exSolid], b.vel = (0 : Vec)) ∧ ((1 : ℕ) = 1 ∨ (1 : ℕ) = 2) ∧
    ((false = false → (turnUpdate [exSolid] 1 false true).1 = 3 - 1 ∧
      (turnUpdate [exSolid] 1 false true).1 ≠ 1) ∧
    (false = true → (turnUpdate [exSolid] 1 false true).1 = 1) ∧
    (turnUpdate [exSolid] 1 false true).2.1 = false) :=
  ⟨by decide, Or.inl rfl,
    turn_toggles_once_on_full_stop [exSolid] 1 false (by decide) (Or.inl rfl)⟩

/-- C8 (confirmed): the per-axis normalization of `get_polygon_points`
maps any nonempty raw coordinate list with nonzero extent to a list whose
minimum is exactly the margin 20 and whose maximum is exactly
1000 - 20 = 980.  The raw coordinates themselves come from a cosine
series and are quantified over as an arbitrary rational list, with the
nonzero-extent precondition of the claim. -/
theorem normalized_axis_spans_margins (xs : List ℚ) (hne : xs ≠ [])
    (hext : listMin xs ≠ listMax xs) :
    listMin (normalizeAxis xs) = 20 ∧ listMax (normalizeAxis xs) = 980 := by
  obtain ⟨x, t, rfl⟩ := List.exists_cons_of_ne_nil hne
  set m := listMin (x :: t) with hm
  set M := listMax (x :: t) with hM
  have hmM : m ≤ M := foldl_min_le_foldl_max t x x le_rfl
  have hlt : m < M := lt_of_le_of_ne hmM hext
  have hpos : (0 : ℚ) < M - m := by linarith
  set f : ℚ → ℚ := fun v => (v - m) / (M - m) * (1000 - 40) + 20 with hf
  have hmono : Monotone f := by
    intro a b hab
    rw [hf]
    dsimp only
    rw [div_eq_mul_inv, div_eq_mul_inv]
    have hinv : (0 : ℚ) ≤ (M - m)⁻¹ := inv_nonneg.mpr (le_of_lt hpos)
    have h1 : (a - m) * (M - m)⁻¹ ≤ (b - m) * (M - m)⁻¹ :=
      mul_le_mul_of_nonneg_right (by linarith) hinv
    have h2 : (a - m) * (M - m)⁻¹ * (1000 - 40) ≤ (b - m) * (M - m)⁻¹ * (1000 - 40) :=
      mul_le_mul_of_nonneg_right h1 (by norm_num)
    linarith
  have hmap : normalizeAxis (x :: t) = (x :: t).map f := rfl
  constructor
  · have : listMin ((x :: t).map f) = f m := by
      rw [List.map_cons]
      show (t.map f).foldl min (f x) = f m
      rw [foldl_min_map f hmono t x]
      rfl
    rw [hmap, this, hf]
    dsimp only
    rw [sub_self, zero_div]
    norm_num
  · have : listMax ((x :: t).map f) = f M := by
      rw [List.map_cons]
      show (t.map f).foldl max (f x) = f M
      rw [foldl_max_map f hmono t x]
      rfl
    rw [hmap, this, hf]
    dsimp only
    rw [div_self (ne_of_gt hpos)]
    norm_num

/-- C8 witness. -/
theorem normalized_axis_spans_margins_witness :
    (([0, 1, 3] : List ℚ) ≠ [] ∧ listMin [0, 1, 3] ≠ listMax [0, 1, 3]) ∧
    (listMin (normalizeAxis [0, 1, 3]) = 20 ∧ listMax (normalizeAxis [0, 1, 3]) = 980) :=
  ⟨⟨by simp, by norm_num [listMin, listMax, min_def, max_def]⟩,
    normalized_axis_spans_margins _ (by simp)
      (by norm_num [listMin, listMax, min_def, max_def])⟩

/-- C7 (confirmed): two overlapping balls of equal radius whose centers
differ along the x axis only, approaching head-on with velocities `(v, 0)`
and `(-v, 0)`, exchange their velocities exactly: the elastic formula
swaps the normal components and the tangential components (zero here)
pass through unchanged. -/
theorem head_on_equal_radii_exchange (b1 b2 : Ball) (v δ : ℚ)
    (hrad : b2.radius = b1.radius) (hrpos : 0 < b1.radius)
    (hpos : b1.pos - b2.pos = (δ, 0)) (hδ : δ ≠ 0)
    (hover : δ ^ 2 < (2 * b1.radius) ^ 2)
    (hv1 : b1.vel = (v, 0)) (hv2 : b2.vel = (-v, 0)) :
    (handleBallCollision? b1 b2).map (fun t => (t.1.vel, t.2.1.vel, t.2.2)) =
      some ((-v, 0), (v, 0), true) := by
  have hdsq : distSq b1.pos b2.pos = δ * δ := by
    unfold distSq
    rw [hpos]
    show δ * δ + 0 * 0 = δ * δ
    ring
  have hcond : distSq b1.pos b2.pos < (b1.radius + b2.radius) ^ 2 := by
    rw [hdsq, hrad]
    nlinarith [hover]
  have hnε : ∃ ε : ℚ, (ε = 1 ∨ ε = -1) ∧ normalize? (b1.pos - b2.pos) = some (ε, 0) := by
    refine ⟨δ / |δ|, ?_, ?_⟩
    · rcases hδ.lt_or_lt with hn | hp
      · right
        rw [abs_of_neg hn]
        field_simp
      · left
        rw [abs_of_pos hp]
        field_simp
    · rw [hpos]
      have h0 : normalize? ((δ : ℚ), (0 : ℚ)) = some (δ / |δ|, 0 / |δ|) := by
        apply normalize?_eq
        · exact abs_pos.mpr hδ
        · show |δ| * |δ| = δ * δ + 0 * 0
          rw [abs_mul_abs_self]; ring
      rw [h0, zero_div]
  obtain ⟨ε, hε, hnorm⟩ := hnε
  have h2r : b1.radius + b1.radius ≠ 0 := by linarith
  unfold handleBallCollision?
  rw [if_pos hcond, hnorm]
  simp only [Option.map_some']
  apply congrArg
  dsimp only
  rw [hv1, hv2, hrad]
  simp only [dot, Prod.smul_mk, Prod.mk_add_mk, smul_eq_mul, Prod.mk.injEq]
  rcases hε with rfl | rfl
  · refine ⟨⟨?_, ?_⟩, ⟨?_, ?_⟩, trivial⟩ <;> field_simp <;> ring
  · refine ⟨⟨?_, ?_⟩, ⟨?_, ?_⟩, trivial⟩ <;> field_simp <;> ring

/-- C7 witness. -/
theorem head_on_equal_radii_exchange_witness :
    (headB.radius = headA.radius ∧ (0 : ℚ) < headA.radius ∧
      headA.pos - headB.pos = ((5 : ℚ), (0 : ℚ)) ∧ (5 : ℚ) ≠ 0 ∧
      (5 : ℚ) ^ 2 < (2 * headA.radius) ^ 2 ∧
      headA.vel = ((3 : ℚ), (0 : ℚ)) ∧ headB.vel = ((-3 : ℚ), (0 : ℚ))) ∧
    (handleBallCollision? headA headB).map (fun t => (t.1.vel, t.2.1.vel, t.2.2)) =
      some ((-(3 : ℚ), (0 : ℚ)), ((3 : ℚ), (0 : ℚ)), true) :=
  ⟨⟨rfl, by norm_num [headA],
      by norm_num [headA, headB, Prod.mk_sub_mk, Prod.ext_iff],
      by norm_num, by norm_num [headA], rfl, rfl⟩,
    head_on_equal_radii_exchange headA headB 3 5 rfl (by norm_num [headA])
      (by norm_num [headA, headB, Prod.mk_sub_mk, Prod.ext_iff]) (by norm_num)
      (by norm_num [headA]) rfl rfl⟩

/-- C10 (confirmed): capture handling never removes the cue ball for good.
A captured cue ball is re-appended in the same update with zero velocity
at the free position, which is at least twice each radius away from every
remaining ball (squared form of the loop guard of `get_free_position`); a
captured non-cue ball is just erased; and whenever some active ball is the
cue, the updated list still contains a cue ball and is nonempty. -/
theorem cue_ball_never_absent (st : GameState) (b : Ball)
    (hcue : ∃ c ∈ st.balls, c.isCue = true) :
    ((captureUpdate st b).balls ≠ [] ∧
      ∃ c ∈ (captureUpdate st b).balls, c.isCue = true) ∧
    (b.isCue = true →
      (captureUpdate st b).balls =
        st.balls.erase b ++ [{ b with pos := freePos (st.balls.erase b), vel := 0 }] ∧
      { b with pos := freePos (st.balls.erase b), vel := 0 }.vel = 0 ∧
      ∀ c ∈ st.balls.erase b,
        ¬ distSq (freePos (st.balls.erase b)) c.pos < (2 * c.radius) ^ 2) ∧
    (b.isCue = false → (captureUpdate st b).balls = st.balls.erase b) := by
  have hfree : ∀ (balls : List Ball), ∀ c ∈ balls,
      ¬ distSq (freePos balls) c.pos < (2 * c.radius) ^ 2 := by
    intro balls
    unfold freePos
    exact Nat.find_spec (freePos_exists balls)
  by_cases hb : b.isCue = true
  · have hupd : (captureUpdate st b).balls =
        st.balls.erase b ++ [{ b with pos := freePos (st.balls.erase b), vel := 0 }] := by
      unfold captureUpdate
      rw [if_pos hb]
    refine ⟨⟨?_, ?_⟩, fun _ => ⟨hupd, rfl, hfree _⟩,
      fun hfalse => absurd hfalse (by simp [hb])⟩
    · rw [hupd]; simp
    · rw [hupd]
      exact ⟨{ b with pos := freePos (st.balls.erase b), vel := 0 },
        List.mem_append_right _ (List.mem_singleton_self _), hb⟩
  · have hupd : (captureUpdate st b).balls = st.balls.erase b := by
      unfold captureUpdate
      rw [if_neg hb]
      split_ifs <;> rfl
    obtain ⟨c, hcmem, hccue⟩ := hcue
    have hcb : c ≠ b := by
      intro h; rw [h] at hccue; exact hb hccue
    have hcmem' : c ∈ st.balls.erase b := (List.mem_erase_of_ne hcb).mpr hcmem
    refine ⟨⟨?_, ?_⟩, fun htrue => absurd htrue hb, fun _ => hupd⟩
    · rw [hupd]; exact List.ne_nil_of_mem hcmem'
    · rw [hupd]; exact ⟨c, hcmem', hccue⟩

/-- C10 witness. -/
theorem cue_ball_never_absent_witness :
    (∃ c ∈ exState.balls, c.isCue = true) ∧
    (((captureUpdate exState exSolid).balls ≠ [] ∧
      ∃ c ∈ (captureUpdate exState exSolid).balls, c.isCue = true) ∧
    (exSolid.isCue = true →
      (captureUpdate exState exSolid).balls =
        exState.balls.erase exSolid ++
          [{ exSolid with pos := freePos (exState.balls.erase exSolid), vel := 0 }] ∧
      { exSolid with pos := freePos (exState.balls.erase exSolid), vel := 0 }.vel = 0 ∧
      ∀ c ∈ exState.balls.erase exSolid,
        ¬ distSq (freePos (exState.balls.erase exSolid)) c.pos < (2 * c.radius) ^ 2) ∧
    (exSolid.isCue = false →
      (captureUpdate exState exSolid).balls = exState.balls.erase exSolid)) :=
  ⟨⟨exCue, List.mem_cons_self _ _, rfl⟩,
    cue_ball_never_absent exState exSolid ⟨exCue, List.mem_cons_self _ _, rfl⟩⟩

/-- For every candidate cap, pushing from the start of a horizontal
segment of length cap + 1 along the segment (a direction the
overlap-rescue loop produces as the midpoint drift) still collides after
cap iterations, so the loop count exceeds the cap. -/
lemma pushCount_exceeds_any_cap :
    ∀ cap : ℕ, cap < pushCount ((0 : ℚ), (0 : ℚ)) (((cap : ℚ) + 1), (0 : ℚ))
      ((0 : ℚ), (0 : ℚ)) ((1 : ℚ), (0 : ℚ)) 10 := by
  intro cap
  have hd : (((1 : ℚ), (0 : ℚ)) : Vec) ≠ 0 := by
    simp [Prod.ext_iff]
  unfold pushCount
  rw [dif_neg hd]
  rw [Nat.lt_find_iff]
  intro m hm
  rw [not_not]
  have hpos : ((0 : ℚ), (0 : ℚ)) + (m : ℚ) • ((1 : ℚ), (0 : ℚ)) = ((m : ℚ), (0 : ℚ)) := by
    rw [Prod.smul_mk, Prod.mk_add_mk]
    norm_num
  rw [hpos]
  rw [collides_horiz 0 ((cap : ℚ) + 1) 0 (m : ℚ) 0 10 (by positivity)
    (Nat.cast_nonneg m) (by exact_mod_cast le_trans (Nat.cast_le.mpr hm) (by linarith))]
  norm_num

/-- C4 counterexample: there is no fixed iteration cap within which the
push-out loop terminates for every input geometry.  The witness geometry
family pushes from the start of a horizontal segment of length cap + 1
along the segment direction, which needs more than cap iterations; the
source loops are unbounded `while` loops with no cap at all. -/
theorem push_loop_has_no_uniform_cap :
    ¬ ∃ cap : ℕ, ∀ L : ℚ, 0 < L →
      pushCount ((0 : ℚ), (0 : ℚ)) (L, (0 : ℚ)) ((0 : ℚ), (0 : ℚ)) ((1 : ℚ), (0 : ℚ)) 10 ≤
        cap := by
  rintro ⟨cap, hcap⟩
  exact absurd (hcap ((cap : ℚ) + 1) (by positivity))
    (not_le.mpr (pushCount_exceeds_any_cap cap))

/-- C4 (amended): the push-out loops of the source have no iteration cap;
each is an unbounded `while` loop.  They nonetheless terminate for every
geometry with a nonzero push direction, and the resulting position is
clear of the segment, so one tick of collision resolution is total. -/
theorem push_loops_terminate_without_cap (s e p d : Vec) (r : ℚ) (hd : d ≠ 0) :
    ¬ collides (pushOut s e p d r) r s e :=
  pushOut_clear s e p d r hd

/-- C4 witness. -/
theorem push_loops_terminate_without_cap_witness :
    ((((0 : ℚ), (1 : ℚ)) : Vec) ≠ 0) ∧
    ¬ collides (pushOut ((0 : ℚ), (0 : ℚ)) ((100 : ℚ), (0 : ℚ)) ((95 : ℚ), (5 : ℚ))
        ((0 : ℚ), (1 : ℚ)) 10) 10 ((0 : ℚ), (0 : ℚ)) ((100 : ℚ), (0 : ℚ)) :=
  ⟨by simp [Prod.ext_iff],
    push_loops_terminate_without_cap _ _ _ _ _ (by simp [Prod.ext_iff])⟩

lemma kite_inside : pointInsidePolygon ((12 : ℚ), (0 : ℚ)) kitePts = true := by
  have hzip : kitePts.zip (kitePts.rotate (kitePts.length - 1)) =
      [(((0 : ℚ), (0 : ℚ)), ((3 : ℚ), (4 : ℚ))), (((3 : ℚ), (-4 : ℚ)), ((0 : ℚ), (0 : ℚ))),
        (((30 : ℚ), (0 : ℚ)), ((3 : ℚ), (-4 : ℚ))), (((3 : ℚ), (4 : ℚ)), ((30 : ℚ), (0 : ℚ)))] :=
    rfl
  unfold pointInsidePolygon
  rw [hzip]
  simp only [List.foldl_cons, List.foldl_nil]
  norm_num

lemma kite_u_eval :
    normalize? (vertexAt kitePts (0 + (kitePts.length - 1)) - vertexAt kitePts 0) =
      some ((3 : ℚ) / 5, (4 : ℚ) / 5) := by
  have hsub : vertexAt kitePts (0 + (kitePts.length - 1)) - vertexAt kitePts 0 =
      ((3 : ℚ), (4 : ℚ)) := by
    show ((3 : ℚ), (4 : ℚ)) - ((0 : ℚ), (0 : ℚ)) = ((3 : ℚ), (4 : ℚ))
    rw [Prod.mk_sub_mk]
    norm_num
  rw [hsub]
  exact normalize?_eq _ 5 (by norm_num) (by unfold lenSq; norm_num)

lemma kite_w_eval :
    normalize? (vertexAt kitePts (0 + 1) - vertexAt kitePts 0) =
      some ((3 : ℚ) / 5, (-4 : ℚ) / 5) := by
  have hsub : vertexAt kitePts (0 + 1) - vertexAt kitePts 0 = ((3 : ℚ), (-4 : ℚ)) := by
    show ((3 : ℚ), (-4 : ℚ)) - ((0 : ℚ), (0 : ℚ)) = ((3 : ℚ), (-4 : ℚ))
    rw [Prod.mk_sub_mk]
    norm_num
  rw [hsub]
  exact normalize?_eq _ 5 (by norm_num) (by unfold lenSq; norm_num)

lemma kite_m_eval :
    normalize? (((3 : ℚ) / 5, (4 : ℚ) / 5) + ((3 : ℚ) / 5, (-4 : ℚ) / 5)) =
      some ((1 : ℚ), (0 : ℚ)) := by
  have hsum : ((3 : ℚ) / 5, (4 : ℚ) / 5) + ((3 : ℚ) / 5, (-4 : ℚ) / 5) =
      ((6 : ℚ) / 5, (0 : ℚ)) := by
    rw [Prod.mk_add_mk]
    norm_num
  rw [hsum]
  rw [normalize?_eq _ (6 / 5) (by norm_num) (by unfold lenSq; norm_num)]
  norm_num [Prod.ext_iff]

lemma kite_mid_eval :
    (normalize? (vertexAt kitePts (0 + (kitePts.length - 1)) - vertexAt kitePts 0)).bind
      (fun u => (normalize? (vertexAt kitePts (0 + 1) - vertexAt kitePts 0)).bind
        (fun w => normalize? (u + w))) = some ((1 : ℚ), (0 : ℚ)) := by
  rw [kite_u_eval, Option.some_bind, kite_w_eval, Option.some_bind, kite_m_eval]

lemma kite_hole_arg :
    vertexAt kitePts 0 + (12 : ℚ) • (((1 : ℚ), (0 : ℚ)) : Vec) = ((12 : ℚ), (0 : ℚ)) := by
  show ((0 : ℚ), (0 : ℚ)) + (12 : ℚ) • (((1 : ℚ), (0 : ℚ)) : Vec) = ((12 : ℚ), (0 : ℚ))
  rw [Prod.smul_mk, Prod.mk_add_mk]
  norm_num

lemma kite_hole_eval : holeAt kitePts 12 0 = some ((12 : ℚ), (0 : ℚ)) := by
  unfold holeAt
  rw [kite_u_eval, Option.some_bind, kite_w_eval, Option.some_bind, kite_m_eval,
    Option.map_some']
  rw [kite_hole_arg, kite_inside]
  rw [if_pos rfl]

/-- C3 counterexample: on the kite polygon the bisector at vertex 0 is
`(1, 0)` and the offset point `(12, 0)` lies INSIDE the polygon by the
ray-casting test, yet the produced hole is the non-inverted `(12, 0)`,
not the inverted `(-12, 0)` the claim requires when the test reports
inside. -/
theorem hole_kept_inside_not_inverted :
    generateHolesFromPoints kitePts 1 12 = some [((12 : ℚ), (0 : ℚ))] ∧
    pointInsidePolygon ((12 : ℚ), (0 : ℚ)) kitePts = true ∧
    generateHolesFromPoints kitePts 1 12 ≠ some [((-12 : ℚ), (0 : ℚ))] := by
  have hgen : generateHolesFromPoints kitePts 1 12 = some [((12 : ℚ), (0 : ℚ))] := by
    unfold generateHolesFromPoints
    rw [if_neg (by decide : ¬ (kitePts.length / 1 = 0))]
    have hidx : (List.range kitePts.length).filter (fun i => i % (kitePts.length / 1) = 0) =
        [0] := rfl
    rw [hidx]
    simp only [List.mapM_cons, List.mapM_nil, kite_hole_eval]
    rfl
  refine ⟨hgen, kite_inside, ?_⟩
  rw [hgen]
  simp only [ne_eq, Option.some_inj, List.cons.injEq, Prod.mk.injEq, and_true]
  norm_num

/-- C3 (amended): the pocket offset of `generate_holes_from_points` is
inverted exactly when the ray-casting test reports the offset point to be
OUTSIDE the polygon (the source comment reads: if the hole is outside the
polygon, invert its offset), so pockets end up on the inside; the claim
has the inversion condition backwards. -/
theorem hole_offset_inverted_when_outside (points : List Vec) (off : ℚ) (i : ℕ)
    (m h : Vec)
    (hm : (normalize? (vertexAt points (i + (points.length - 1)) - vertexAt points i)).bind
        (fun u => (normalize? (vertexAt points (i + 1) - vertexAt points i)).bind
          (fun w => normalize? (u + w))) = some m)
    (hh : holeAt points off i = some h) :
    (pointInsidePolygon (vertexAt points i + off • m) points = true →
      h = vertexAt points i + off • m) ∧
    (pointInsidePolygon (vertexAt points i + off • m) points = false →
      h = vertexAt points i - off • m) := by
  unfold holeAt at hh
  rcases Option.bind_eq_some.mp hm with ⟨u, hu, hm2⟩
  rcases Option.bind_eq_some.mp hm2 with ⟨w, hw, hm3⟩
  rw [hu, Option.some_bind, hw, Option.some_bind, hm3, Option.map_some'] at hh
  rw [Option.some_inj] at hh
  constructor
  · intro hin
    rw [if_pos hin] at hh
    exact hh.symm
  · intro hout
    rw [if_neg (by simp [hout])] at hh
    exact hh.symm

/-- C3 witness for the amended theorem. -/
theorem hole_offset_inverted_when_outside_witness :
    ((normalize? (vertexAt kitePts (0 + (kitePts.length - 1)) - vertexAt kitePts 0)).bind
        (fun u => (normalize? (vertexAt kitePts (0 + 1) - vertexAt kitePts 0)).bind
          (fun w => normalize? (u + w))) = some ((1 : ℚ), (0 : ℚ)) ∧
      holeAt kitePts 12 0 = some ((12 : ℚ), (0 : ℚ))) ∧
    ((pointInsidePolygon (vertexAt kitePts 0 + (12 : ℚ) • (((1 : ℚ), (0 : ℚ)) : Vec))
        kitePts = true →
      ((12 : ℚ), (0 : ℚ)) = vertexAt kitePts 0 + (12 : ℚ) • (((1 : ℚ), (0 : ℚ)) : Vec)) ∧
     (pointInsidePolygon (vertexAt kitePts 0 + (12 : ℚ) • (((1 : ℚ), (0 : ℚ)) : Vec))
        kitePts = false →
      ((12 : ℚ), (0 : ℚ)) = vertexAt kitePts 0 - (12 : ℚ) • (((1 : ℚ), (0 : ℚ)) : Vec))) :=
  ⟨⟨kite_mid_eval, kite_hole_eval⟩,
    hole_offset_inverted_when_outside kitePts 12 0 _ _ kite_mid_eval kite_hole_eval⟩

lemma lenSq_ne_zero {v : Vec} (h : v ≠ 0) : lenSq v ≠ 0 :=
  fun h0 => h ((lenSq_eq_zero_iff v).mp h0)

lemma wallCollideAux_nil (r : ℚ) (p v : Vec) :
    wallCollideAux r p v [] = some (p, v, false) := rfl

lemma wallCollideAux_cons (r : ℚ) (p v s e : Vec) (rest : List (Vec × Vec)) :
    wallCollideAux r p v ((s, e) :: rest) =
      (collidesWithSegment? p r s e).bind fun c =>
        if c then
          (normalize? (rot90 (e - s))).map fun n_ => (pushOut s e p n_ r, reflect v n_, true)
        else wallCollideAux r p v rest := rfl

lemma rescueAux_nil (r : ℚ) (p v : Vec) : rescueAux r p v [] = some (p, v) := rfl

lemma rescueAux_cons (r : ℚ) (p v s e sn en : Vec)
    (rest : List ((Vec × Vec) × (Vec × Vec))) :
    rescueAux r p v (((s, e), (sn, en)) :: rest) =
      (collidesWithSegment? p r s e).bind fun c =>
        if c then
          (normalize? (midpt sn en - midpt s e)).bind fun dm =>
            rescueAux r (pushOut s e p dm r) (v + (2 : ℚ) • dm) rest
        else rescueAux r p v rest := rfl

lemma wallCollideAux_step_hit (r : ℚ) (p v s e n_ : Vec) (rest : List (Vec × Vec))
    (hc : collidesWithSegment? p r s e = some true)
    (hn : normalize? (rot90 (e - s)) = some n_) :
    wallCollideAux r p v ((s, e) :: rest) = some (pushOut s e p n_ r, reflect v n_, true) := by
  rw [wallCollideAux_cons, hc]
  simp only [Option.some_bind, eq_self_iff_true, if_true, hn, Option.map_some']

lemma rescueAux_step_skip (r : ℚ) (p v s e sn en : Vec)
    (rest : List ((Vec × Vec) × (Vec × Vec)))
    (hc : collidesWithSegment? p r s e = some false) :
    rescueAux r p v (((s, e), (sn, en)) :: rest) = rescueAux r p v rest := by
  rw [rescueAux_cons, hc]
  simp only [Option.some_bind, Bool.false_eq_true, if_false]

lemma rescueAux_step_hit (r : ℚ) (p v s e sn en dm : Vec)
    (rest : List ((Vec × Vec) × (Vec × Vec)))
    (hc : collidesWithSegment? p r s e = some true)
    (hdm : normalize? (midpt sn en - midpt s e) = some dm) :
    rescueAux r p v (((s, e), (sn, en)) :: rest) =
      rescueAux r (pushOut s e p dm r) (v + (2 : ℚ) • dm) rest := by
  rw [rescueAux_cons, hc]
  simp only [Option.some_bind, eq_self_iff_true, if_true, hdm]


lemma collidesWithSegment?_eval_true {p : Vec} {r : ℚ} {s e : Vec}
    (hne : lenSq (e - s) ≠ 0) (hc : collides p r s e) :
    collidesWithSegment? p r s e = some true := by
  unfold collidesWithSegment?
  rw [if_neg hne, decide_eq_true hc]

lemma collidesWithSegment?_eval_false {p : Vec} {r : ℚ} {s e : Vec}
    (hne : lenSq (e - s) ≠ 0) (hc : ¬ collides p r s e) :
    collidesWithSegment? p r s e = some false := by
  unfold collidesWithSegment?
  rw [if_neg hne, decide_eq_false hc]

lemma step_along_y (j : ℕ) :
    ((95 : ℚ), (5 : ℚ)) + (j : ℚ) • (((0 : ℚ), (1 : ℚ)) : Vec) = ((95 : ℚ), 5 + (j : ℚ)) := by
  rw [Prod.smul_mk, Prod.mk_add_mk]
  norm_num

lemma step_along_x (j : ℕ) :
    ((95 : ℚ), (11 : ℚ)) + (j : ℚ) • (((1 : ℚ), (0 : ℚ)) : Vec) =
      (95 + (j : ℚ), (11 : ℚ)) := by
  rw [Prod.smul_mk, Prod.mk_add_mk]
  norm_num

lemma wall_demo_collide :
    collidesWithSegment? ((95 : ℚ), (5 : ℚ)) 10 ((0 : ℚ), (0 : ℚ)) ((100 : ℚ), (0 : ℚ)) =
      some true := by
  apply collidesWithSegment?_eval_true
  · apply lenSq_ne_zero
    rw [Prod.mk_sub_mk]
    simp [Prod.ext_iff]
  · rw [collides_horiz 0 100 0 95 5 10 (by norm_num) (by norm_num) (by norm_num)]
    norm_num

lemma wall_demo_normal :
    normalize? (rot90 (((100 : ℚ), (0 : ℚ)) - ((0 : ℚ), (0 : ℚ)))) =
      some ((0 : ℚ), (1 : ℚ)) := by
  have hsub : ((100 : ℚ), (0 : ℚ)) - ((0 : ℚ), (0 : ℚ)) = ((100 : ℚ), (0 : ℚ)) := by
    rw [Prod.mk_sub_mk]; norm_num
  rw [hsub]
  rw [show rot90 ((100 : ℚ), (0 : ℚ)) = ((0 : ℚ), (100 : ℚ)) from by
    unfold rot90; norm_num]
  rw [normalize?_eq _ 100 (by norm_num) (by unfold lenSq; norm_num)]
  norm_num [Prod.ext_iff]

lemma wall_demo_push :
    pushOut ((0 : ℚ), (0 : ℚ)) ((100 : ℚ), (0 : ℚ)) ((95 : ℚ), (5 : ℚ)) ((0 : ℚ), (1 : ℚ)) 10 =
      ((95 : ℚ), (11 : ℚ)) := by
  apply pushOut_eq _ _ _ _ _ _ 6
  · simp [Prod.ext_iff]
  · rw [step_along_y 6]
    rw [collides_horiz 0 100 0 95 (5 + (6 : ℕ)) 10 (by norm_num) (by norm_num) (by norm_num)]
    push_cast
    norm_num
  · intro j hj
    rw [step_along_y j]
    rw [collides_horiz 0 100 0 95 (5 + (j : ℚ)) 10 (by norm_num) (by norm_num) (by norm_num)]
    have hj5 : (j : ℚ) ≤ 5 := by exact_mod_cast Nat.lt_succ_iff.mp hj
    have hj0 : (0 : ℚ) ≤ (j : ℚ) := Nat.cast_nonneg j
    nlinarith
  · rw [step_along_y 6]
    push_cast
    norm_num

lemma wall_demo_reflect :
    reflect ((0 : ℚ), (0 : ℚ)) ((0 : ℚ), (1 : ℚ)) = ((0 : ℚ), (0 : ℚ)) := by
  unfold reflect dot
  rw [Prod.smul_mk, Prod.mk_sub_mk]
  norm_num

lemma wall_demo_aux : wallCollideAux 10 ((95 : ℚ), (5 : ℚ)) ((0 : ℚ), (0 : ℚ))
    [(((0 : ℚ), (0 : ℚ)), ((100 : ℚ), (0 : ℚ))), (((100 : ℚ), (0 : ℚ)), ((100 : ℚ), (100 : ℚ))),
      (((100 : ℚ), (100 : ℚ)), ((0 : ℚ), (100 : ℚ))), (((0 : ℚ), (100 : ℚ)), ((0 : ℚ), (0 : ℚ)))] =
    some (((95 : ℚ), (11 : ℚ)), ((0 : ℚ), (0 : ℚ)), true) := by
  have h := wallCollideAux_step_hit 10 ((95 : ℚ), (5 : ℚ)) ((0 : ℚ), (0 : ℚ))
    ((0 : ℚ), (0 : ℚ)) ((100 : ℚ), (0 : ℚ)) ((0 : ℚ), (1 : ℚ))
    [(((100 : ℚ), (0 : ℚ)), ((100 : ℚ), (100 : ℚ))),
      (((100 : ℚ), (100 : ℚ)), ((0 : ℚ), (100 : ℚ))),
      (((0 : ℚ), (100 : ℚ)), ((0 : ℚ), (0 : ℚ)))]
    wall_demo_collide wall_demo_normal
  rw [wall_demo_push, wall_demo_reflect] at h
  exact h

lemma move_demo : moveBall demoBall = demoBall := by
  simp only [moveBall, demoBall]
  norm_num [Prod.mk_add_mk, Prod.smul_mk, Prod.ext_iff]

lemma tick_demo_eval : tickBallPhase sqPts demoBall = some demoBallAfterWall := by
  unfold tickBallPhase wallCollideBall
  rw [move_demo]
  show (wallCollideAux 10 ((95 : ℚ), (5 : ℚ)) ((0 : ℚ), (0 : ℚ)) (segments sqPts)).map
      (fun x => { demoBall with pos := x.1, vel := x.2.1 }) = some demoBallAfterWall
  rw [show segments sqPts =
      [(((0 : ℚ), (0 : ℚ)), ((100 : ℚ), (0 : ℚ))), (((100 : ℚ), (0 : ℚ)), ((100 : ℚ), (100 : ℚ))),
        (((100 : ℚ), (100 : ℚ)), ((0 : ℚ), (100 : ℚ))),
        (((0 : ℚ), (100 : ℚ)), ((0 : ℚ), (0 : ℚ)))] from rfl]
  rw [wall_demo_aux]
  rfl

lemma rescue_demo_collide :
    collidesWithSegment? ((95 : ℚ), (11 : ℚ)) 10 ((100 : ℚ), (0 : ℚ)) ((100 : ℚ), (100 : ℚ)) =
      some true := by
  apply collidesWithSegment?_eval_true
  · apply lenSq_ne_zero
    rw [Prod.mk_sub_mk]
    simp [Prod.ext_iff]
  · rw [collides_vert 100 0 100 95 11 10 (by norm_num) (by norm_num) (by norm_num)]
    norm_num

lemma rescue_demo_mid :
    normalize? (midpt ((101 : ℚ), (0 : ℚ)) ((101 : ℚ), (100 : ℚ)) -
        midpt ((100 : ℚ), (0 : ℚ)) ((100 : ℚ), (100 : ℚ))) = some ((1 : ℚ), (0 : ℚ)) := by
  have h1 : midpt ((101 : ℚ), (0 : ℚ)) ((101 : ℚ), (100 : ℚ)) = ((101 : ℚ), (50 : ℚ)) := by
    unfold midpt
    rw [Prod.mk_add_mk, Prod.smul_mk]
    norm_num
  have h2 : midpt ((100 : ℚ), (0 : ℚ)) ((100 : ℚ), (100 : ℚ)) = ((100 : ℚ), (50 : ℚ)) := by
    unfold midpt
    rw [Prod.mk_add_mk, Prod.smul_mk]
    norm_num
  rw [h1, h2]
  rw [show ((101 : ℚ), (50 : ℚ)) - ((100 : ℚ), (50 : ℚ)) = ((1 : ℚ), (0 : ℚ)) from by
    rw [Prod.mk_sub_mk]; norm_num]
  rw [normalize?_eq _ 1 one_pos (by unfold lenSq; norm_num)]
  norm_num [Prod.ext_iff]

lemma rescue_demo_push :
    pushOut ((100 : ℚ), (0 : ℚ)) ((100 : ℚ), (100 : ℚ)) ((95 : ℚ), (11 : ℚ))
      ((1 : ℚ), (0 : ℚ)) 10 = ((111 : ℚ), (11 : ℚ)) := by
  apply pushOut_eq _ _ _ _ _ _ 16
  · simp [Prod.ext_iff]
  · rw [step_along_x 16]
    rw [collides_vert 100 0 100 (95 + (16 : ℕ)) 11 10 (by norm_num) (by norm_num) (by norm_num)]
    push_cast
    norm_num
  · intro j hj
    rw [step_along_x j]
    rw [collides_vert 100 0 100 (95 + (j : ℚ)) 11 10 (by norm_num) (by norm_num) (by norm_num)]
    have hj15 : (j : ℚ) ≤ 15 := by exact_mod_cast Nat.lt_succ_iff.mp hj
    have hj0 : (0 : ℚ) ≤ (j : ℚ) := Nat.cast_nonneg j
    nlinarith
  · rw [step_along_x 16]
    push_cast
    norm_num

lemma rescue_demo_vel :
    ((0 : ℚ), (0 : ℚ)) + (2 : ℚ) • (((1 : ℚ), (0 : ℚ)) : Vec) = ((2 : ℚ), (0 : ℚ)) := by
  rw [Prod.smul_mk, Prod.mk_add_mk]
  norm_num

lemma rescue_demo_skip0 :
    collidesWithSegment? ((95 : ℚ), (11 : ℚ)) 10 ((0 : ℚ), (0 : ℚ)) ((100 : ℚ), (0 : ℚ)) =
      some false := by
  apply collidesWithSegment?_eval_false
  · apply lenSq_ne_zero
    rw [Prod.mk_sub_mk]
    simp [Prod.ext_iff]
  · rw [collides_horiz 0 100 0 95 11 10 (by norm_num) (by norm_num) (by norm_num)]
    norm_num

lemma rescue_demo_skip2 :
    collidesWithSegment? ((111 : ℚ), (11 : ℚ)) 10 ((100 : ℚ), (100 : ℚ)) ((0 : ℚ), (100 : ℚ)) =
      some false := by
  apply collidesWithSegment?_eval_false
  · apply lenSq_ne_zero
    rw [Prod.mk_sub_mk]
    simp [Prod.ext_iff]
  · simp only [collides, closestPoint, clamp01, distSq, lenSq, dot,
      Prod.mk_sub_mk, Prod.mk_add_mk, Prod.smul_mk, smul_eq_mul, min_def, max_def]
    norm_num

lemma rescue_demo_skip3 :
    collidesWithSegment? ((111 : ℚ), (11 : ℚ)) 10 ((0 : ℚ), (100 : ℚ)) ((0 : ℚ), (0 : ℚ)) =
      some false := by
  apply collidesWithSegment?_eval_false
  · apply lenSq_ne_zero
    rw [Prod.mk_sub_mk]
    simp [Prod.ext_iff]
  · simp only [collides, closestPoint, clamp01, distSq, lenSq, dot,
      Prod.mk_sub_mk, Prod.mk_add_mk, Prod.smul_mk, smul_eq_mul, min_def, max_def]
    norm_num

lemma rescue_demo_aux : rescueAux 10 ((95 : ℚ), (11 : ℚ)) ((0 : ℚ), (0 : ℚ))
    [((((0 : ℚ), (0 : ℚ)), ((100 : ℚ), (0 : ℚ))), (((1 : ℚ), (0 : ℚ)), ((101 : ℚ), (0 : ℚ)))),
      ((((100 : ℚ), (0 : ℚ)), ((100 : ℚ), (100 : ℚ))),
        (((101 : ℚ), (0 : ℚ)), ((101 : ℚ), (100 : ℚ)))),
      ((((100 : ℚ), (100 : ℚ)), ((0 : ℚ), (100 : ℚ))),
        (((101 : ℚ), (100 : ℚ)), ((1 : ℚ), (100 : ℚ)))),
      ((((0 : ℚ), (100 : ℚ)), ((0 : ℚ), (0 : ℚ))),
        (((1 : ℚ), (100 : ℚ)), ((1 : ℚ), (0 : ℚ))))] =
    some (((111 : ℚ), (11 : ℚ)), ((2 : ℚ), (0 : ℚ))) := by
  have h0 := rescueAux_step_skip 10 ((95 : ℚ), (11 : ℚ)) ((0 : ℚ), (0 : ℚ))
    ((0 : ℚ), (0 : ℚ)) ((100 : ℚ), (0 : ℚ)) ((1 : ℚ), (0 : ℚ)) ((101 : ℚ), (0 : ℚ))
    [((((100 : ℚ), (0 : ℚ)), ((100 : ℚ), (100 : ℚ))),
        (((101 : ℚ), (0 : ℚ)), ((101 : ℚ), (100 : ℚ)))),
      ((((100 : ℚ), (100 : ℚ)), ((0 : ℚ), (100 : ℚ))),
        (((101 : ℚ), (100 : ℚ)), ((1 : ℚ), (100 : ℚ)))),
      ((((0 : ℚ), (100 : ℚ)), ((0 : ℚ), (0 : ℚ))),
        (((1 : ℚ), (100 : ℚ)), ((1 : ℚ), (0 : ℚ))))]
    rescue_demo_skip0
  have h1 := rescueAux_step_hit 10 ((95 : ℚ), (11 : ℚ)) ((0 : ℚ), (0 : ℚ))
    ((100 : ℚ), (0 : ℚ)) ((100 : ℚ), (100 : ℚ)) ((101 : ℚ), (0 : ℚ))
    ((101 : ℚ), (100 : ℚ)) ((1 : ℚ), (0 : ℚ))
    [((((100 : ℚ), (100 : ℚ)), ((0 : ℚ), (100 : ℚ))),
        (((101 : ℚ), (100 : ℚ)), ((1 : ℚ), (100 : ℚ)))),
      ((((0 : ℚ), (100 : ℚ)), ((0 : ℚ), (0 : ℚ))),
        (((1 : ℚ), (100 : ℚ)), ((1 : ℚ), (0 : ℚ))))]
    rescue_demo_collide rescue_demo_mid
  rw [rescue_demo_push, rescue_demo_vel] at h1
  have h2 := rescueAux_step_skip 10 ((111 : ℚ), (11 : ℚ)) ((2 : ℚ), (0 : ℚ))
    ((100 : ℚ), (100 : ℚ)) ((0 : ℚ), (100 : ℚ)) ((101 : ℚ), (100 : ℚ))
    ((1 : ℚ), (100 : ℚ))
    [((((0 : ℚ), (100 : ℚ)), ((0 : ℚ), (0 : ℚ))),
        (((1 : ℚ), (100 : ℚ)), ((1 : ℚ), (0 : ℚ))))]
    rescue_demo_skip2
  have h3 := rescueAux_step_skip 10 ((111 : ℚ), (11 : ℚ)) ((2 : ℚ), (0 : ℚ))
    ((0 : ℚ), (100 : ℚ)) ((0 : ℚ), (0 : ℚ)) ((1 : ℚ), (100 : ℚ)) ((1 : ℚ), (0 : ℚ))
    [] rescue_demo_skip3
  exact h0.trans (h1.trans (h2.trans (h3.trans (rescueAux_nil 10 _ _))))

lemma claimed_demo_eval :
    claimedTickBallPhase sqPts sqPtsNext demoBall = some demoBallAfterRescue := by
  have h1 : claimedTickBallPhase sqPts sqPtsNext demoBall =
      rescueBall sqPts sqPtsNext demoBallAfterWall := by
    unfold claimedTickBallPhase
    exact congrArg (fun x => x.bind (rescueBall sqPts sqPtsNext)) tick_demo_eval
  have haux : rescueAux demoBallAfterWall.radius demoBallAfterWall.pos demoBallAfterWall.vel
      (segmentPairs sqPts sqPtsNext) = some (((111 : ℚ), (11 : ℚ)), ((2 : ℚ), (0 : ℚ))) :=
    rescue_demo_aux
  have h2 : rescueBall sqPts sqPtsNext demoBallAfterWall = some demoBallAfterRescue := by
    unfold rescueBall
    exact congrArg (Option.map fun x => { demoBallAfterWall with pos := x.1, vel := x.2 }) haux
  exact h1.trans h2

/-- C2 counterexample: the per-ball tick phase of `run` is not followed by
the boundary-overlap rescue.  On the square table with `demoBall` lodged
in the corner, the tick phase of the source stops after wall reflection at
position `(95, 11)` with zero velocity, while the wall-then-rescue
composition the claim describes would continue to `(111, 11)` and inject
velocity `(2, 0)`; the two disagree, because the run loop never calls
`handle_ball_polygon_overlap`. -/
theorem tick_phase_omits_overlap_rescue :
    tickBallPhase sqPts demoBall = some demoBallAfterWall ∧
    claimedTickBallPhase sqPts sqPtsNext demoBall = some demoBallAfterRescue ∧
    demoBallAfterWall.vel = ((0 : ℚ), (0 : ℚ)) ∧
    demoBallAfterRescue.vel = ((2 : ℚ), (0 : ℚ)) ∧
    tickBallPhase sqPts demoBall ≠ claimedTickBallPhase sqPts sqPtsNext demoBall := by
  refine ⟨tick_demo_eval, claimed_demo_eval, rfl, rfl, ?_⟩
  rw [tick_demo_eval, claimed_demo_eval]
  intro hcon
  rw [Option.some_inj] at hcon
  have hvel : demoBallAfterWall.vel = demoBallAfterRescue.vel := by rw [hcon]
  have h0 : (((0 : ℚ), (0 : ℚ)) : Vec) = ((2 : ℚ), (0 : ℚ)) := hvel
  have := congrArg Prod.fst h0
  norm_num at this

/-- C2 (amended): the boundary-overlap rescue routine, when invoked on a
segment the ball overlaps whose midpoint drift normalizes to `dm`, pushes
the ball along `dm` until clear of that segment and adds `2 * dm` to the
velocity; but the run loop of the source never invokes it, applying wall
reflection only (see the counterexample). -/
theorem rescue_pushes_until_clear_and_injects_velocity (s e sn en p v : Vec) (r : ℚ)
    (dm : Vec)
    (hcol : collidesWithSegment? p r s e = some true)
    (hdm : normalize? (midpt sn en - midpt s e) = some dm) :
    rescueAux r p v [((s, e), (sn, en))] = some (pushOut s e p dm r, v + (2 : ℚ) • dm) ∧
    ¬ collides (pushOut s e p dm r) r s e := by
  refine ⟨?_, pushOut_clear s e p dm r (normalize?_ne_zero hdm)⟩
  exact (rescueAux_step_hit r p v s e sn en dm [] hcol hdm).trans (rescueAux_nil r _ _)

/-- C2 witness for the amended theorem. -/
theorem rescue_pushes_until_clear_and_injects_velocity_witness :
    (collidesWithSegment? ((95 : ℚ), (11 : ℚ)) 10 ((100 : ℚ), (0 : ℚ)) ((100 : ℚ), (100 : ℚ)) =
        some true ∧
      normalize? (midpt ((101 : ℚ), (0 : ℚ)) ((101 : ℚ), (100 : ℚ)) -
          midpt ((100 : ℚ), (0 : ℚ)) ((100 : ℚ), (100 : ℚ))) = some ((1 : ℚ), (0 : ℚ))) ∧
    (rescueAux 10 ((95 : ℚ), (11 : ℚ)) ((0 : ℚ), (0 : ℚ))
        [((((100 : ℚ), (0 : ℚ)), ((100 : ℚ), (100 : ℚ))),
          (((101 : ℚ), (0 : ℚ)), ((101 : ℚ), (100 : ℚ))))] =
      some (pushOut ((100 : ℚ), (0 : ℚ)) ((100 : ℚ), (100 : ℚ)) ((95 : ℚ), (11 : ℚ))
          ((1 : ℚ), (0 : ℚ)) 10,
        ((0 : ℚ), (0 : ℚ)) + (2 : ℚ) • (((1 : ℚ), (0 : ℚ)) : Vec)) ∧
      ¬ collides (pushOut ((100 : ℚ), (0 : ℚ)) ((100 : ℚ), (100 : ℚ)) ((95 : ℚ), (11 : ℚ))
          ((1 : ℚ), (0 : ℚ)) 10) 10 ((100 : ℚ), (0 : ℚ)) ((100 : ℚ), (100 : ℚ))) :=
  ⟨⟨rescue_demo_collide, rescue_demo_mid⟩,
    rescue_pushes_until_clear_and_injects_velocity _ _ _ _ _ _ _ _
      rescue_demo_collide rescue_demo_mid⟩

end TurtlePool
